import Mathlib

/-!
Verification development for the spin key-value subsystem: the write-behind
caching store decorator (`crates/factor-key-value/src/util.rs`) and the
capability-scoped handle dispatch (`crates/factor-key-value/src/host.rs`).

The Rust code is shallowly embedded as executable Lean functions.  Byte
strings are `List Nat`; the `lru::LruCache` is a most-recently-used-first
association list bounded by a capacity; the chain of spawned backend write
tasks (`CachingStoreState::previous_task`) is represented operationally by
the list of write operations that have been spawned but not yet executed
(`pending`), together with the error of an already-executed failed chained
write (`failed`) — each spawned task awaits its predecessor and propagates
the predecessor's error without running its own backend operation, which is
exactly what `stepBg` does when `failed` is set.  Background execution of
the chain is one `stepBg` per backend write, so "backend latency" is the
choice of how many `stepBg` steps run between guest-visible calls.  Every
backend call that actually happens is recorded in an event trace, so
"no backend call is made" is provable as trace equality.
-/

namespace Spin

/-- Decidable equality for `Except`, so that concrete runs of the embedded
operations can be checked by `decide`. -/
instance {ε α : Type} [DecidableEq ε] [DecidableEq α] : DecidableEq (Except ε α) := by
  intro a b
  cases a <;> cases b
  case error.error e₁ e₂ =>
    exact if h : e₁ = e₂ then .isTrue (by rw [h]) else .isFalse (by simp [h])
  case error.ok e₁ a₂ => exact .isFalse (by simp)
  case ok.error a₁ e₂ => exact .isFalse (by simp)
  case ok.ok a₁ a₂ =>
    exact if h : a₁ = a₂ then .isTrue (by rw [h]) else .isFalse (by simp [h])

/-- Byte strings stored in the key-value store. -/
abbrev Bytes := List Nat

/-- The primary error taxonomy (`spin_world::v2::key_value::Error`). -/
inductive Error where
  | storeTableFull
  | noSuchStore
  | accessDenied
  | other (msg : String)
deriving DecidableEq

/-- The wasi-keyvalue error taxonomy (`wasi_keyvalue::store::Error`):
it has no store-table-full case. -/
inductive WasiError where
  | noSuchStore
  | accessDenied
  | other (msg : String)
deriving DecidableEq

/-- The legacy v1 error taxonomy (`spin_world::v1::key_value::Error`),
restricted to the cases reachable from `host.rs`. -/
inductive LegacyError where
  | storeTableFull
  | noSuchStore
  | accessDenied
  | noSuchKey
  | io (msg : String)
deriving DecidableEq

/-- Events recording each call that actually reaches the backend store. -/
inductive BEvent where
  | bGet (k : String)
  | bSet (k : String) (v : Bytes)
  | bDel (k : String)
  | bKeys
deriving DecidableEq

/-- A backend write operation spawned onto the pending-write chain. -/
inductive WriteOp where
  | setOp (k : String) (v : Bytes)
  | delOp (k : String)
deriving DecidableEq

/-- The backend event produced by executing a chained write. -/
def WriteOp.event : WriteOp → BEvent
  | .setOp k v => .bSet k v
  | .delOp k => .bDel k

/-- Association-list lookup (first binding wins), used for the backend map
and for `LruCache::peek`. -/
def alookup {β : Type} (k : String) : List (String × β) → Option β
  | [] => none
  | (k', v) :: rest => if k' = k then some v else alookup k rest

/-- Remove every binding of `k` from an association list. -/
def eraseKey {β : Type} (k : String) : List (String × β) → List (String × β)
  | [] => []
  | (k', v) :: rest => if k' = k then eraseKey k rest else (k', v) :: eraseKey k rest

/-- Association-list update: bind `k` to `v`, removing any previous binding. -/
def aput (k : String) (v : Bytes) (d : List (String × Bytes)) : List (String × Bytes) :=
  (k, v) :: eraseKey k d

/-- Effect of one backend write on the backend's key-value map
(`Store::set` / `Store::delete` of the inner store). -/
def applyWrite (d : List (String × Bytes)) : WriteOp → List (String × Bytes)
  | .setOp k v => aput k v d
  | .delOp k => eraseKey k d

/-- Effect of a sequence of backend writes, first submitted first applied. -/
def applyWrites (d : List (String × Bytes)) (ops : List WriteOp) : List (String × Bytes) :=
  ops.foldl applyWrite d

/-- The inner (backing) store together with its failure behaviour: `readErr`
makes every backend read fail (an unreachable backend), and `writeScript`
prescribes, per executed backend write, whether that write fails
(head consumed per write; an empty script means all writes succeed). -/
structure Backend where
  data : List (String × Bytes)
  readErr : Option Error
  writeScript : List (Option Error)
deriving DecidableEq

/-- Backend read (`Store::get` of the inner store). -/
def Backend.read (b : Backend) (k : String) : Except Error (Option Bytes) :=
  match b.readErr with
  | some e => .error e
  | none => .ok (alookup k b.data)

/-- Backend key listing (`Store::get_keys` of the inner store). -/
def Backend.keys (b : Backend) : Except Error (List String) :=
  match b.readErr with
  | some e => .error e
  | none => .ok (b.data.map (fun p => p.1))

/-- Execute one backend write, consuming the head of the failure script. -/
def Backend.write (b : Backend) (op : WriteOp) : Except Error Unit × Backend :=
  match b.writeScript with
  | [] => (.ok (), { b with data := applyWrite b.data op })
  | none :: rest => (.ok (), { b with data := applyWrite b.data op, writeScript := rest })
  | some e :: rest => (.error e, { b with writeScript := rest })

/-- LRU lookup with promotion (`LruCache::get`): on a hit the entry moves to
the most-recently-used (front) position. -/
def lruGet (k : String) (c : List (String × Option Bytes)) :
    Option (Option Bytes × List (String × Option Bytes)) :=
  match alookup k c with
  | none => none
  | some v => some (v, (k, v) :: eraseKey k c)

/-- LRU insertion (`LruCache::put`): the entry becomes most recently used and
the least-recently-used entry is evicted if the capacity is exceeded. -/
def lruPut (cap : Nat) (c : List (String × Option Bytes)) (k : String) (v : Option Bytes) :
    List (String × Option Bytes) :=
  ((k, v) :: eraseKey k c).take cap

/-- One cached store instance (`CachingStore` plus its `CachingStoreState`
and the inner backend).  `cache` entries of the form `(k, none)` are
tombstones.  `pending` are the chained write tasks not yet executed and
`failed` the error of an executed failed chained write that has not yet
been consumed by a flush; `trace` records every backend call made. -/
structure CachingStore where
  capacity : Nat
  cache : List (String × Option Bytes)
  pending : List WriteOp
  failed : Option Error
  backend : Backend
  trace : List BEvent
deriving DecidableEq

/-- One background execution step: the head of the pending-write chain runs
against the backend.  If an earlier chained write already failed, the task
merely propagates that error (`previous_task.await??` in
`CachingStoreState::spawn`) and its own backend operation never runs. -/
def stepBg (st : CachingStore) : CachingStore :=
  match st.pending with
  | [] => st
  | op :: rest =>
    match st.failed with
    | some _ => { st with pending := rest }
    | none =>
      match st.backend.write op with
      | (.ok _, b') =>
          { st with pending := rest, backend := b', trace := st.trace ++ [op.event] }
      | (.error e, b') =>
          { st with
              pending := rest
              backend := b'
              failed := some e
              trace := st.trace ++ [op.event] }

/-- Run `n` background steps. -/
def drainN : Nat → CachingStore → CachingStore
  | 0, st => st
  | n + 1, st => drainN n (stepBg st)

/-- Run the pending-write chain to quiescence. -/
def drain (st : CachingStore) : CachingStore := drainN st.pending.length st

namespace CachingStore

/-- Embedding of `CachingStoreState::flush`: take the chain handle out of the
state, await it (here: run it to quiescence) and surface its result; after a
flush the state holds no chain handle, so `failed` is cleared. -/
def flush (st : CachingStore) : Except Error Unit × CachingStore :=
  let st' := drain st
  match st'.failed with
  | some e => (.error e, { st' with failed := none })
  | none => (.ok (), st')

/-- Embedding of `CachingStore::get`: on a cache hit (including tombstones)
return the cached value with no backend call; on a miss flush the chain,
read from the backend, cache the result and return it. -/
def get (st : CachingStore) (k : String) : Except Error (Option Bytes) × CachingStore :=
  match lruGet k st.cache with
  | some (v, c') => (.ok v, { st with cache := c' })
  | none =>
    match st.flush with
    | (.error e, st') => (.error e, st')
    | (.ok _, st') =>
      let st₂ := { st' with trace := st'.trace ++ [BEvent.bGet k] }
      match st₂.backend.read k with
      | .error e => (.error e, st₂)
      | .ok v => (.ok v, { st₂ with cache := lruPut st₂.capacity st₂.cache k v })

/-- Embedding of `CachingStore::set`: record the value in the cache and spawn
a backend write onto the chain; the call itself always succeeds. -/
def set (st : CachingStore) (k : String) (v : Bytes) : CachingStore :=
  { st with
      cache := lruPut st.capacity st.cache k (some v)
      pending := st.pending ++ [.setOp k v] }

/-- Embedding of `CachingStore::delete`: record a tombstone in the cache and
spawn a backend delete onto the chain; the call itself always succeeds. -/
def delete (st : CachingStore) (k : String) : CachingStore :=
  { st with
      cache := lruPut st.capacity st.cache k none
      pending := st.pending ++ [.delOp k] }

/-- Embedding of `CachingStore::exists`: `get(key).is_some()`. -/
def existsKey (st : CachingStore) (k : String) : Except Error Bool × CachingStore :=
  match st.get k with
  | (.ok v, st') => (.ok v.isSome, st')
  | (.error e, st') => (.error e, st')

end CachingStore

/-- The key overlay computed by `CachingStore::get_keys` from the backend's
key list and the cache: backend keys whose cache entry is a tombstone are
removed, keys of present cache entries are added, and the result is
deduplicated (collected into a hash set). -/
def overlayKeys (bkeys : List String) (cache : List (String × Option Bytes)) : List String :=
  (bkeys.filter (fun k =>
      match alookup k cache with
      | some v => v.isSome
      | none => true)
    ++ cache.filterMap (fun p => p.2.map (fun _ => p.1))).dedup

/-- Embedding of `CachingStore::get_keys`: flush the chain, fetch the
backend's key list and overlay the cache on it. -/
def CachingStore.get_keys (st : CachingStore) : Except Error (List String) × CachingStore :=
  match st.flush with
  | (.error e, st') => (.error e, st')
  | (.ok _, st') =>
    let st₂ := { st' with trace := st'.trace ++ [BEvent.bKeys] }
    match st₂.backend.keys with
    | .error e => (.error e, st₂)
    | .ok ks => (.ok (overlayKeys ks st₂.cache), st₂)

/-- Outcome of one of the unimplemented extension operations: in the source
each of them is literally `todo!()`, which panics; `panics` embeds that
divergence, and `value` would embed an ordinary returned result. -/
inductive ExtResult (α : Type) where
  | panics
  | value (r : Except Error α)

/-- Embedding of `CachingStore::get_many`: the body is `todo!()`. -/
def CachingStore.get_many (_st : CachingStore) (_keys : List String) :
    ExtResult (List (Option (String × Bytes))) := .panics

/-- Embedding of `CachingStore::set_many`: the body is `todo!()`. -/
def CachingStore.set_many (_st : CachingStore) (_kvs : List (String × Bytes)) :
    ExtResult Unit := .panics

/-- Embedding of `CachingStore::delete_many`: the body is `todo!()`. -/
def CachingStore.delete_many (_st : CachingStore) (_keys : List String) :
    ExtResult Unit := .panics

/-- Embedding of `CachingStore::increment`: the body is `todo!()`. -/
def CachingStore.increment (_st : CachingStore) (_key : String) (_delta : Int) :
    ExtResult Int := .panics

/-- Embedding of `CachingStore::new_compare_and_swap`: the body is `todo!()`. -/
def CachingStore.new_compare_and_swap (_st : CachingStore) (_key : String) :
    ExtResult Unit := .panics

/-- Modelled from the spec: `spin_resource_table::Table`, whose source is not
part of the provided files (only `host.rs` calls it).  Per the spec, it is a
bounded table of `(integer id, owned Store)` entries: `push` allocates a
fresh id and fails (returning the unit error that `host.rs` maps to
StoreTableFull) when the table already holds `capacity` live entries, `get`
resolves an id to its entry and fails on any id that is not live, and
`remove` deletes an entry, invalidating its id immediately. -/
structure Table (α : Type) where
  capacity : Nat
  entries : List (Nat × α)
  next : Nat
deriving DecidableEq

/-- Modelled from the spec: insert an entry if the table is below capacity,
returning the new id, and fail (unit error) when the table is full, leaving
the table unchanged. -/
def Table.push (t : Table α) (v : α) : Except Unit (Nat × Table α) :=
  if t.entries.length < t.capacity then
    .ok (t.next, { t with entries := t.entries ++ [(t.next, v)], next := t.next + 1 })
  else
    .error ()

/-- Association-list lookup with natural-number keys, for the handle table. -/
def alookupNat {β : Type} (h : Nat) : List (Nat × β) → Option β
  | [] => none
  | (h', v) :: rest => if h' = h then some v else alookupNat h rest

/-- Modelled from the spec: resolve an id to its live entry, if any. -/
def Table.get (t : Table α) (h : Nat) : Option α :=
  alookupNat h t.entries

/-- Modelled from the spec: remove an entry, invalidating its id. -/
def Table.remove (t : Table α) (h : Nat) : Table α :=
  { t with entries := t.entries.filter (fun p => p.1 ≠ h) }

/-- Embedding of `to_wasi_err`: the translation of the primary error
taxonomy into the wasi-keyvalue one. -/
def to_wasi_err : Error → WasiError
  | .accessDenied => .accessDenied
  | .noSuchStore => .noSuchStore
  | .storeTableFull => .other "store table full"
  | .other msg => .other msg

/-- Embedding of `to_legacy_error`: the translation of the primary error
taxonomy into the legacy v1 one. -/
def to_legacy_error : Error → LegacyError
  | .storeTableFull => .storeTableFull
  | .noSuchStore => .noSuchStore
  | .accessDenied => .accessDenied
  | .other s => .io s

/-- Embedding of `KeyValueDispatch` without its manager: the allow-list and
the handle table.  The configured `StoreManager` is passed to each operation
as a pure function from a store name to either a store value or an error, so
that theorems can quantify over every possible manager behaviour. -/
structure KeyValueDispatch (α : Type) where
  allowed_stores : List String
  stores : Table α
deriving DecidableEq

/-- Embedding of `key_value::HostStore::open` (the v2 entry point): check the
allow-list first, then ask the manager for the store, then push it into the
handle table, mapping a full table to StoreTableFull. -/
def openStore (manager : String → Except Error α) (d : KeyValueDispatch α)
    (name : String) : Except Error Nat × KeyValueDispatch α :=
  if d.allowed_stores.contains name then
    match manager name with
    | .error e => (.error e, d)
    | .ok s =>
      match d.stores.push s with
      | .error _ => (.error .storeTableFull, d)
      | .ok (h, t') => (.ok h, { d with stores := t' })
  else
    (.error .accessDenied, d)

/-- Embedding of `wasi_keyvalue::store::Host::open`: the same sequence with
manager errors translated by `to_wasi_err` and a full table reported as
`Other("store table full")` (the wasi taxonomy has no StoreTableFull). -/
def openStoreWasi (manager : String → Except Error α) (d : KeyValueDispatch α)
    (name : String) : Except WasiError Nat × KeyValueDispatch α :=
  if d.allowed_stores.contains name then
    match manager name with
    | .error e => (.error (to_wasi_err e), d)
    | .ok s =>
      match d.stores.push s with
      | .error _ => (.error (.other "store table full"), d)
      | .ok (h, t') => (.ok h, { d with stores := t' })
  else
    (.error .accessDenied, d)

/-- Embedding of `spin_world::v1::key_value::Host::open` (the legacy entry
point): delegate to the v2 open and translate errors with `to_legacy_error`. -/
def openStoreLegacy (manager : String → Except Error α) (d : KeyValueDispatch α)
    (name : String) : Except LegacyError Nat × KeyValueDispatch α :=
  match openStore manager d name with
  | (.ok h, d') => (.ok h, d')
  | (.error e, d') => (.error (to_legacy_error e), d')

/-- Embedding of `KeyValueDispatch::get_store`: resolve a handle, failing
with the local `anyhow` context message "invalid store" (a host trap, not a
`key_value::Error` value) when the handle is not live. -/
def KeyValueDispatch.get_store (d : KeyValueDispatch α) (h : Nat) : Except String α :=
  match d.stores.get h with
  | none => .error "invalid store"
  | some s => .ok s

/-- Embedding of `KeyValueDispatch::get_store_wasi`: resolve a handle,
failing with `wasi_keyvalue::store::Error::NoSuchStore` when the handle is
not live. -/
def KeyValueDispatch.get_store_wasi (d : KeyValueDispatch α) (h : Nat) :
    Except WasiError α :=
  match d.stores.get h with
  | none => .error .noSuchStore
  | some s => .ok s

/-- A sequence of guest `set`/`delete` calls submitted on one cached store
instance, applied in program order. -/
def applyCalls (st : CachingStore) : List WriteOp → CachingStore
  | [] => st
  | .setOp k v :: rest => applyCalls (st.set k v) rest
  | .delOp k :: rest => applyCalls (st.delete k) rest

/-- A freshly opened cached store over an empty, fault-free backend, with
cache capacity 1 (used to instantiate theorems at concrete inputs). -/
def freshStore : CachingStore :=
  { capacity := 1, cache := [], pending := [], failed := none
    backend := { data := [], readErr := none, writeScript := [] }, trace := [] }

/-- A freshly opened cached store over an unreachable backend (every backend
read and write fails), with cache capacity 1. -/
def unreachableStore : CachingStore :=
  { capacity := 1, cache := [], pending := [], failed := none
    backend := { data := []
                 readErr := some (.other "unreachable")
                 writeScript := [some (.other "unreachable"), some (.other "unreachable")] }
    trace := [] }

/-- A cached store over a backend holding keys `x` and `y`, with default
cache capacity 256 (the key-listing overlay scenario). -/
def xyStore : CachingStore :=
  { capacity := 256, cache := [], pending := [], failed := none
    backend := { data := [("x", [120]), ("y", [121])], readErr := none, writeScript := [] }
    trace := [] }

/-- A cached store whose pending-write chain has already suffered a failed
backend write that no flush has consumed yet. -/
def poisonedStore : CachingStore :=
  { capacity := 1, cache := [], pending := [], failed := some (.other "boom")
    backend := { data := [], readErr := none, writeScript := [] }, trace := [] }

/-- A dispatch whose allow-list is `{"default"}` and whose handle table is
empty with capacity 1. -/
def freshDispatch : KeyValueDispatch Nat :=
  { allowed_stores := ["default"], stores := { capacity := 1, entries := [], next := 0 } }

/-- A dispatch whose allow-list is `{"default"}` and whose handle table is
at capacity (capacity 1, one live entry). -/
def fullDispatch : KeyValueDispatch Nat :=
  { allowed_stores := ["default"], stores := { capacity := 1, entries := [(0, 0)], next := 1 } }

/-- A store manager that resolves every name to the store value `7`. -/
def okManager : String → Except Error Nat := fun _ => .ok 7

/-- A store manager that resolves no name at all. -/
def emptyManager : String → Except Error Nat := fun _ => .error .noSuchStore

/-! Helper lemmas about the association lists, the LRU cache and the
background execution of the pending-write chain. -/

lemma alookup_aput_same (k : String) (v : Bytes) (d : List (String × Bytes)) :
    alookup k (aput k v d) = some v := by
  simp [aput, alookup]

lemma alookup_eraseKey_ne {β : Type} (k k' : String) (h : k' ≠ k) :
    ∀ d : List (String × β), alookup k (eraseKey k' d) = alookup k d
  | [] => rfl
  | (a, b) :: rest => by
    by_cases ha : a = k'
    · subst ha
      have hak : ¬a = k := h
      simp [eraseKey, alookup, hak, alookup_eraseKey_ne k a h rest]
    · by_cases hak : a = k
      · subst hak
        simp [eraseKey, alookup, Ne.symm h]
      · simp [eraseKey, alookup, ha, hak, alookup_eraseKey_ne k k' h rest]

lemma alookup_aput_other (k k' : String) (v : Bytes) (d : List (String × Bytes))
    (h : k' ≠ k) : alookup k (aput k' v d) = alookup k d := by
  simp [aput, alookup, h, alookup_eraseKey_ne k k' h d]

lemma alookup_lruPut_same (cap : Nat) (hcap : 1 ≤ cap)
    (c : List (String × Option Bytes)) (k : String) (v : Option Bytes) :
    alookup k (lruPut cap c k v) = some v := by
  obtain ⟨m, rfl⟩ : ∃ m, cap = m + 1 := ⟨cap - 1, by omega⟩
  simp [lruPut, List.take_succ_cons, alookup]

lemma stepBg_nil (st : CachingStore) (h : st.pending = []) : stepBg st = st := by
  obtain ⟨cap, cache, pending, failed, backend, trace⟩ := st
  simp only at h
  subst h
  rfl

lemma stepBg_pending (st : CachingStore) (op : WriteOp) (rest : List WriteOp)
    (h : st.pending = op :: rest) : (stepBg st).pending = rest := by
  obtain ⟨cap, cache, pending, failed, backend, trace⟩ := st
  simp only at h
  subst h
  cases failed with
  | some e => rfl
  | none =>
      cases hw : backend.write op with
      | mk r b' => cases r <;> simp [stepBg, hw]

lemma stepBg_success (st : CachingStore) (op : WriteOp) (rest : List WriteOp)
    (h : st.pending = op :: rest) (hf : st.failed = none)
    (hs : st.backend.writeScript = []) :
    stepBg st = { st with
        pending := rest
        backend := { st.backend with data := applyWrite st.backend.data op }
        trace := st.trace ++ [op.event] } := by
  obtain ⟨cap, cache, pending, failed, ⟨data, re, ws⟩, trace⟩ := st
  simp only at h hf hs
  subst h
  subst hf
  subst hs
  simp [stepBg, Backend.write]

lemma stepBg_failed_some (st : CachingStore) (e : Error) (h : st.failed = some e) :
    (stepBg st).backend = st.backend ∧ (stepBg st).trace = st.trace ∧
    (stepBg st).failed = some e ∧ (stepBg st).cache = st.cache ∧
    (stepBg st).capacity = st.capacity := by
  obtain ⟨cap, cache, pending, failed, backend, trace⟩ := st
  simp only at h
  subst h
  cases pending with
  | nil => exact ⟨rfl, rfl, rfl, rfl, rfl⟩
  | cons op rest => exact ⟨rfl, rfl, rfl, rfl, rfl⟩

lemma drainN_pending : ∀ (n : Nat) (st : CachingStore), st.pending.length ≤ n →
    (drainN n st).pending = []
  | 0, st, h => by
      rw [drainN]
      exact List.length_eq_zero.mp (Nat.le_zero.mp h)
  | n + 1, st, h => by
      rw [drainN]
      cases hp : st.pending with
      | nil =>
          rw [stepBg_nil st hp]
          exact drainN_pending n st (by rw [hp]; exact Nat.zero_le n)
      | cons op rest =>
          refine drainN_pending n (stepBg st) ?_
          rw [stepBg_pending st op rest hp]
          rw [hp] at h
          simp at h
          omega

lemma drain_pending (st : CachingStore) : (drain st).pending = [] :=
  drainN_pending st.pending.length st (Nat.le_refl _)

lemma drain_stepBg (st : CachingStore) : drain (stepBg st) = drain st := by
  cases h : st.pending with
  | nil => rw [stepBg_nil st h]
  | cons op rest =>
      have h2 := stepBg_pending st op rest h
      simp [drain, h, h2, drainN]

lemma drain_drainN : ∀ (m : Nat) (st : CachingStore), drain (drainN m st) = drain st
  | 0, _ => rfl
  | m + 1, st => by
      rw [drainN, drain_drainN m (stepBg st), drain_stepBg]

lemma drain_success : ∀ (p : List WriteOp) (st : CachingStore), st.pending = p →
    st.failed = none → st.backend.writeScript = [] →
    drain st = { st with
        pending := []
        backend := { st.backend with data := applyWrites st.backend.data p }
        trace := st.trace ++ p.map WriteOp.event }
  | [], st, h, _, _ => by
      obtain ⟨cap, cache, pending, failed, ⟨data, re, ws⟩, tr⟩ := st
      simp only at h
      subst h
      simp [drain, drainN, applyWrites]
  | op :: rest, st, h, hf, hs => by
      have hstep := stepBg_success st op rest h hf hs
      have h2 : (stepBg st).pending = rest := by rw [hstep]
      have hf2 : (stepBg st).failed = none := by rw [hstep]; exact hf
      have hs2 : (stepBg st).backend.writeScript = [] := by rw [hstep]; exact hs
      have hd : drain st = drain (stepBg st) := by
        simp [drain, h, h2, drainN]
      rw [hd, drain_success rest (stepBg st) h2 hf2 hs2, hstep]
      obtain ⟨cap, cache, pending, failed, ⟨data, re, ws⟩, tr⟩ := st
      simp [applyWrites]

lemma set_stepBg (st : CachingStore) (k : String) (v : Bytes) (op : WriteOp)
    (rest : List WriteOp) (h : st.pending = op :: rest) :
    (stepBg st).set k v = stepBg (st.set k v) := by
  obtain ⟨cap, cache, pending, failed, backend, trace⟩ := st
  simp only at h
  subst h
  cases failed with
  | some e => simp [stepBg, CachingStore.set]
  | none =>
      cases hw : backend.write op with
      | mk r b' => cases r <;> simp [stepBg, CachingStore.set, hw]

lemma drain_set_stepBg (st : CachingStore) (k : String) (v : Bytes) :
    drain ((stepBg st).set k v) = drain (st.set k v) := by
  cases h : st.pending with
  | nil => rw [stepBg_nil st h]
  | cons op rest => rw [set_stepBg st k v op rest h, drain_stepBg]

lemma drain_set_drainN : ∀ (m : Nat) (st : CachingStore) (k : String) (v : Bytes),
    drain ((drainN m st).set k v) = drain (st.set k v)
  | 0, _, _, _ => rfl
  | m + 1, st, k, v => by
      rw [drainN, drain_set_drainN m (stepBg st) k v, drain_set_stepBg]

lemma drainN_failed_some : ∀ (m : Nat) (st : CachingStore) (e : Error),
    st.failed = some e →
    (drainN m st).backend = st.backend ∧ (drainN m st).trace = st.trace ∧
    (drainN m st).failed = some e
  | 0, _, _, h => ⟨rfl, rfl, h⟩
  | m + 1, st, e, h => by
      rw [drainN]
      obtain ⟨hb, ht, hf, _, _⟩ := stepBg_failed_some st e h
      obtain ⟨hb2, ht2, hf2⟩ := drainN_failed_some m (stepBg st) e hf
      exact ⟨hb2.trans hb, ht2.trans ht, hf2⟩

lemma flush_eq (st : CachingStore) :
    st.flush = match (drain st).failed with
      | some e => (.error e, { drain st with failed := none })
      | none => (.ok (), drain st) := rfl

lemma flush_quiescent (st : CachingStore) (h1 : st.pending = [])
    (h2 : st.failed = none) : st.flush = (.ok (), st) := by
  have hd : drain st = st := by simp [drain, h1, drainN]
  rw [flush_eq, hd, h2]

lemma flush_failed (st : CachingStore) (e : Error) (h : st.failed = some e) :
    (st.flush).1 = .error e ∧ (st.flush).2.failed = none ∧
    (st.flush).2.backend = st.backend ∧ (st.flush).2.trace = st.trace := by
  obtain ⟨hb, ht, hf⟩ := drainN_failed_some st.pending.length st e h
  have hf' : (drain st).failed = some e := hf
  have hfl : st.flush = (.error e, { drain st with failed := none }) := by
    rw [flush_eq, hf']
  rw [hfl]
  exact ⟨rfl, rfl, hb, ht⟩

lemma stepBg_fail (st : CachingStore) (op : WriteOp) (rest : List WriteOp)
    (e₂ : Error) (tl : List (Option Error)) (hf : st.failed = none)
    (hp : st.pending = op :: rest) (hs : st.backend.writeScript = some e₂ :: tl) :
    stepBg st = { st with
        pending := rest
        backend := { st.backend with writeScript := tl }
        failed := some e₂
        trace := st.trace ++ [op.event] } := by
  obtain ⟨cap, cache, pending, failed, ⟨data, re, ws⟩, trace⟩ := st
  simp only at hf hp hs
  subst hf
  subst hp
  subst hs
  simp [stepBg, Backend.write]

lemma applyCalls_preserves : ∀ (ops : List WriteOp) (st : CachingStore),
    (applyCalls st ops).backend = st.backend ∧
    (applyCalls st ops).trace = st.trace ∧
    (applyCalls st ops).failed = st.failed
  | [], _ => ⟨rfl, rfl, rfl⟩
  | .setOp k v :: rest, st => applyCalls_preserves rest (st.set k v)
  | .delOp k :: rest, st => applyCalls_preserves rest (st.delete k)

/-- C1: read-your-writes within one cached store instance: `set(k,v)` records
the value in the cache, so a following `get(k)` on the same instance returns
`v`, and `delete(k)` records a tombstone, so a following `exists(k)` returns
false — in both cases with no backend call (the trace and the backend are
unchanged), hence independently of whether the backend is reachable. -/
theorem spin_C1_read_your_writes (st : CachingStore) (k : String) (v : Bytes)
    (hcap : 1 ≤ st.capacity) :
    (((st.set k v).get k).1 = .ok (some v) ∧
      ((st.set k v).get k).2.trace = st.trace ∧
      ((st.set k v).get k).2.backend = st.backend) ∧
    (((st.delete k).existsKey k).1 = .ok false ∧
      ((st.delete k).existsKey k).2.trace = st.trace ∧
      ((st.delete k).existsKey k).2.backend = st.backend) := by
  have h1 : alookup k (lruPut st.capacity st.cache k (some v)) = some (some v) :=
    alookup_lruPut_same st.capacity hcap st.cache k (some v)
  have h2 : alookup k (lruPut st.capacity st.cache k none) = some none :=
    alookup_lruPut_same st.capacity hcap st.cache k none
  constructor
  · simp [CachingStore.get, CachingStore.set, lruGet, h1]
  · simp [CachingStore.existsKey, CachingStore.get, CachingStore.delete, lruGet, h2]

theorem spin_C1_witness :
    ((((unreachableStore.set "k" [1]).get "k").1 = .ok (some [1]) ∧
      ((unreachableStore.set "k" [1]).get "k").2.trace = unreachableStore.trace ∧
      ((unreachableStore.set "k" [1]).get "k").2.backend = unreachableStore.backend) ∧
    (((unreachableStore.delete "k").existsKey "k").1 = .ok false ∧
      ((unreachableStore.delete "k").existsKey "k").2.trace = unreachableStore.trace ∧
      ((unreachableStore.delete "k").existsKey "k").2.backend = unreachableStore.backend)) :=
  spin_C1_read_your_writes unreachableStore "k" [1] (by decide)

/-- C5: access-control precedence: opening a name that is not in the
allow-list fails with AccessDenied at every entry point and leaves the
dispatch unchanged, for every possible store manager — in particular no
manager or backend call can influence the outcome; an allow-listed name
that the manager cannot resolve fails with NoSuchStore. -/
theorem spin_C5_access_control_precedence {α : Type}
    (manager : String → Except Error α) (d : KeyValueDispatch α) (name : String) :
    (d.allowed_stores.contains name = false →
      openStore manager d name = (.error .accessDenied, d) ∧
      openStoreWasi manager d name = (.error .accessDenied, d) ∧
      openStoreLegacy manager d name = (.error .accessDenied, d)) ∧
    (d.allowed_stores.contains name = true →
      manager name = .error .noSuchStore →
      openStore manager d name = (.error .noSuchStore, d) ∧
      openStoreWasi manager d name = (.error .noSuchStore, d) ∧
      openStoreLegacy manager d name = (.error .noSuchStore, d)) := by
  constructor
  · intro h
    have h' : ¬name ∈ d.allowed_stores := by simpa using h
    simp [openStore, openStoreWasi, openStoreLegacy, h', to_legacy_error]
  · intro h hm
    have h' : name ∈ d.allowed_stores := by simpa using h
    simp [openStore, openStoreWasi, openStoreLegacy, h', hm, to_wasi_err, to_legacy_error]

theorem spin_C5_witness :
    openStore emptyManager freshDispatch "other" = (.error .accessDenied, freshDispatch) ∧
    openStore emptyManager freshDispatch "default" = (.error .noSuchStore, freshDispatch) :=
  ⟨((spin_C5_access_control_precedence emptyManager freshDispatch "other").1 (by decide)).1,
   ((spin_C5_access_control_precedence emptyManager freshDispatch "default").2 (by decide) rfl).1⟩

/-- C6 (amended): opening while the handle table is at capacity fails and
leaves the dispatch (hence the table) unchanged; the failure is delivered as
StoreTableFull at the v2 and legacy entry points, and as
Other("store table full") at the wasi entry point, whose taxonomy has no
StoreTableFull case. -/
theorem spin_C6_store_table_full {α : Type} (manager : String → Except Error α)
    (d : KeyValueDispatch α) (name : String) (s : α)
    (hfull : d.stores.capacity ≤ d.stores.entries.length)
    (hallow : d.allowed_stores.contains name = true)
    (hm : manager name = .ok s) :
    openStore manager d name = (.error .storeTableFull, d) ∧
    openStoreLegacy manager d name = (.error .storeTableFull, d) ∧
    openStoreWasi manager d name = (.error (.other "store table full"), d) := by
  have hallow' : name ∈ d.allowed_stores := by simpa using hallow
  have hpush : d.stores.push s = .error () := by
    simp [Table.push, Nat.not_lt.mpr hfull]
  simp [openStore, openStoreWasi, openStoreLegacy, hallow', hm, hpush, to_legacy_error]

theorem spin_C6_witness :
    openStore okManager fullDispatch "default" = (.error .storeTableFull, fullDispatch) ∧
    openStoreLegacy okManager fullDispatch "default" = (.error .storeTableFull, fullDispatch) ∧
    openStoreWasi okManager fullDispatch "default" =
      (.error (.other "store table full"), fullDispatch) :=
  spin_C6_store_table_full okManager fullDispatch "default" 7 (by decide) (by decide) rfl

/-- C6 counterexample: at the wasi entry point a full handle table is
reported as the generic `Other("store table full")` — the very same value
that a backend failure with that message translates to — so the error is not
delivered as StoreTableFull at every protocol entry point. -/
theorem spin_C6_counterexample :
    openStoreWasi okManager fullDispatch "default" =
      (.error (.other "store table full"), fullDispatch) ∧
    to_wasi_err .storeTableFull = .other "store table full" ∧
    to_wasi_err (.other "store table full") = .other "store table full" := by
  refine ⟨by decide, rfl, rfl⟩

/-- C7 (amended): an operation whose handle does not reference a live table
entry fails locally: at the v2 (and legacy) entry points with the distinct
host-level trap "invalid store" (not a `key_value::Error` value), but at the
wasi entry points with `NoSuchStore`, which coincides with the
application-level NoSuchStore error. -/
theorem spin_C7_invalid_handle {α : Type} (d : KeyValueDispatch α) (h : Nat)
    (hdead : d.stores.get h = none) :
    d.get_store h = .error "invalid store" ∧
    d.get_store_wasi h = .error .noSuchStore := by
  simp [KeyValueDispatch.get_store, KeyValueDispatch.get_store_wasi, hdead]

theorem spin_C7_witness :
    fullDispatch.get_store 3 = .error "invalid store" ∧
    fullDispatch.get_store_wasi 3 = .error .noSuchStore :=
  spin_C7_invalid_handle fullDispatch 3 (by decide)

/-- C7 counterexample: resolving a dead handle through the wasi entry point
yields exactly `NoSuchStore`, the same value the application-level
NoSuchStore error translates to — so the invalid-handle condition is not
distinguishable from NoSuchStore there. -/
theorem spin_C7_counterexample :
    freshDispatch.get_store_wasi 0 = .error .noSuchStore ∧
    to_wasi_err Error.noSuchStore = WasiError.noSuchStore ∧
    freshDispatch.get_store 0 = .error "invalid store" := by
  refine ⟨by decide, rfl, by decide⟩

/-- C8: `flush` takes the pending-write chain out of the state before
awaiting it, so after any flush the chain is empty and no deferred error
remains: an immediately following flush succeeds and changes nothing —
a deferred write failure is surfaced to at most one operation. -/
theorem spin_C8_error_surfaced_once (st : CachingStore) :
    ((st.flush).2.pending = [] ∧ (st.flush).2.failed = none) ∧
    (st.flush).2.flush = (.ok (), (st.flush).2) := by
  cases hf : (drain st).failed with
  | some e =>
      have hfl : st.flush = (.error e, { drain st with failed := none }) := by
        rw [flush_eq, hf]
      rw [hfl]
      exact ⟨⟨drain_pending st, rfl⟩, flush_quiescent _ (drain_pending st) rfl⟩
  | none =>
      have hfl : st.flush = (.ok (), drain st) := by
        rw [flush_eq, hf]
      rw [hfl]
      exact ⟨⟨drain_pending st, hf⟩, flush_quiescent _ (drain_pending st) hf⟩

/-- C9: a failed chained backend write poisons the chain: a write whose
backend operation fails records its error, and from a state holding an
unconsumed chain error, any further writes submitted on the instance never
reach the backend (backend and backend-call trace are unchanged no matter
how long background execution runs), and the next flush surfaces exactly
the original error. -/
theorem spin_C9_failure_poisons_chain (st : CachingStore) (e : Error)
    (hfail : st.failed = some e) (ops : List WriteOp) (m : Nat) :
    (∀ (st₂ : CachingStore) (op : WriteOp) (rest : List WriteOp) (e₂ : Error)
        (tl : List (Option Error)), st₂.failed = none → st₂.pending = op :: rest →
        st₂.backend.writeScript = some e₂ :: tl →
        (stepBg st₂).failed = some e₂ ∧
        (stepBg st₂).backend.data = st₂.backend.data) ∧
    (drainN m (applyCalls st ops)).backend = st.backend ∧
    (drainN m (applyCalls st ops)).trace = st.trace ∧
    ((drainN m (applyCalls st ops)).flush).1 = .error e := by
  obtain ⟨hb1, ht1, hf1⟩ := applyCalls_preserves ops st
  obtain ⟨hb2, ht2, hf2⟩ := drainN_failed_some m (applyCalls st ops) e (hf1.trans hfail)
  obtain ⟨hfl, _, _, _⟩ := flush_failed (drainN m (applyCalls st ops)) e hf2
  refine ⟨?_, hb2.trans hb1, ht2.trans ht1, hfl⟩
  intro st₂ op rest e₂ tl h1 h2 h3
  rw [stepBg_fail st₂ op rest e₂ tl h1 h2 h3]
  exact ⟨rfl, rfl⟩

theorem spin_C9_witness :
    (drainN 5 (applyCalls poisonedStore [WriteOp.setOp "k" [1]])).backend =
      poisonedStore.backend ∧
    (drainN 5 (applyCalls poisonedStore [WriteOp.setOp "k" [1]])).trace =
      poisonedStore.trace ∧
    ((drainN 5 (applyCalls poisonedStore [WriteOp.setOp "k" [1]])).flush).1 =
      .error (.other "boom") :=
  ⟨(spin_C9_failure_poisons_chain poisonedStore (.other "boom") rfl
      [WriteOp.setOp "k" [1]] 5).2.1,
   (spin_C9_failure_poisons_chain poisonedStore (.other "boom") rfl
      [WriteOp.setOp "k" [1]] 5).2.2.1,
   (spin_C9_failure_poisons_chain poisonedStore (.other "boom") rfl
      [WriteOp.setOp "k" [1]] 5).2.2.2⟩

/-- C10: every extension operation of the caching store — get_many,
set_many, delete_many, increment, new_compare_and_swap — panics
(`todo!()`) on every input; none of them returns any value, in particular
no explicit unsupported-operation error value. -/
theorem spin_C10_extension_ops_panic (st : CachingStore) (keys : List String)
    (kvs : List (String × Bytes)) (key : String) (delta : Int) :
    (st.get_many keys = .panics ∧ st.set_many kvs = .panics ∧
      st.delete_many keys = .panics ∧ st.increment key delta = .panics ∧
      st.new_compare_and_swap key = .panics) ∧
    (∀ r, st.get_many keys ≠ .value r) ∧
    (∀ r, st.set_many kvs ≠ .value r) ∧
    (∀ r, st.delete_many keys ≠ .value r) ∧
    (∀ r, st.increment key delta ≠ .value r) ∧
    (∀ r, st.new_compare_and_swap key ≠ .value r) := by
  refine ⟨⟨rfl, rfl, rfl, rfl, rfl⟩, ?_, ?_, ?_, ?_, ?_⟩ <;> intro r h <;> exact nomatch h

/-- C2: write-order preservation: submitting `set(k,a)` then `set(k,b)` on
one instance — with any number of background steps (backend latency) before,
between and after — executes the backend writes exactly in submission order
(the trace gains `bSet k a` then `bSet k b` and nothing else), and once the
chain is quiescent the backend holds `b` at `k`, never `a`. -/
theorem spin_C2_write_order (st : CachingStore) (k : String) (a b : Bytes)
    (m n : Nat) (h1 : st.pending = []) (h2 : st.failed = none)
    (h3 : st.backend.writeScript = []) :
    alookup k (drain (drainN n ((drainN m (st.set k a)).set k b))).backend.data =
      some b ∧
    (drain (drainN n ((drainN m (st.set k a)).set k b))).trace =
      st.trace ++ [BEvent.bSet k a, BEvent.bSet k b] ∧
    (drain (drainN n ((drainN m (st.set k a)).set k b))).pending = [] ∧
    (b ≠ a →
      ¬alookup k (drain (drainN n ((drainN m (st.set k a)).set k b))).backend.data =
        some a) := by
  have e1 : drain (drainN n ((drainN m (st.set k a)).set k b)) =
      drain ((drainN m (st.set k a)).set k b) := drain_drainN n _
  have e2 : drain ((drainN m (st.set k a)).set k b) = drain ((st.set k a).set k b) :=
    drain_set_drainN m (st.set k a) k b
  have hp : ((st.set k a).set k b).pending =
      [WriteOp.setOp k a, WriteOp.setOp k b] := by
    simp [CachingStore.set, h1]
  have hf : ((st.set k a).set k b).failed = none := h2
  have hs : ((st.set k a).set k b).backend.writeScript = [] := h3
  have e3 := drain_success _ ((st.set k a).set k b) hp hf hs
  have hlook : alookup k (applyWrites ((st.set k a).set k b).backend.data
      [WriteOp.setOp k a, WriteOp.setOp k b]) = some b := by
    simp [applyWrites, applyWrite, alookup_aput_same]
  rw [e1, e2, e3]
  refine ⟨hlook, ?_, rfl, ?_⟩
  · simp [CachingStore.set, WriteOp.event]
  · intro hne hcontra
    exact hne (Option.some.inj (hlook.symm.trans hcontra))

theorem spin_C2_witness :
    alookup "k"
      (drain (drainN 0 ((drainN 1 (freshStore.set "k" [1])).set "k" [2]))).backend.data =
      some [2] ∧
    (drain (drainN 0 ((drainN 1 (freshStore.set "k" [1])).set "k" [2]))).trace =
      freshStore.trace ++ [BEvent.bSet "k" [1], BEvent.bSet "k" [2]] ∧
    (drain (drainN 0 ((drainN 1 (freshStore.set "k" [1])).set "k" [2]))).pending = [] ∧
    ¬alookup "k"
      (drain (drainN 0 ((drainN 1 (freshStore.set "k" [1])).set "k" [2]))).backend.data =
      some [1] :=
  ⟨(spin_C2_write_order freshStore "k" [1] [2] 1 0 rfl rfl rfl).1,
   (spin_C2_write_order freshStore "k" [1] [2] 1 0 rfl rfl rfl).2.1,
   (spin_C2_write_order freshStore "k" [1] [2] 1 0 rfl rfl rfl).2.2.1,
   (spin_C2_write_order freshStore "k" [1] [2] 1 0 rfl rfl rfl).2.2.2 (by decide)⟩

/-- C3: flush-on-miss and eviction-safe consistency: a `get` whose key has a
cache entry (present or tombstone) returns it with no backend call; and with
cache capacity 1, after `set(ka,va)` then `set(kb,vb)` (which evicts `ka`),
`get(ka)` still returns `va` — the trace shows both pending writes flushed
to the backend before the single backend read. -/
theorem spin_C3_flush_on_miss (st : CachingStore) (ka kb : String) (va vb : Bytes)
    (hcap : st.capacity = 1) (hcache : st.cache = []) (hpend : st.pending = [])
    (hfail : st.failed = none) (hscript : st.backend.writeScript = [])
    (hread : st.backend.readErr = none) (hne : kb ≠ ka) :
    (∀ (st' : CachingStore) (k : String) (v : Option Bytes),
        alookup k st'.cache = some v →
        (st'.get k).1 = .ok v ∧ (st'.get k).2.trace = st'.trace ∧
        (st'.get k).2.backend = st'.backend) ∧
    (((st.set ka va).set kb vb).get ka).1 = .ok (some va) ∧
    (((st.set ka va).set kb vb).get ka).2.trace =
      st.trace ++ [BEvent.bSet ka va, BEvent.bSet kb vb, BEvent.bGet ka] := by
  constructor
  · intro st' k v hh
    simp [CachingStore.get, lruGet, hh]
  have hYcache : ((st.set ka va).set kb vb).cache = [(kb, some vb)] := by
    simp [CachingStore.set, hcap, hcache, lruPut, eraseKey, Ne.symm hne]
  have hmiss : lruGet ka ((st.set ka va).set kb vb).cache = none := by
    rw [hYcache]
    simp [lruGet, alookup, hne]
  have hYpend : ((st.set ka va).set kb vb).pending =
      [WriteOp.setOp ka va, WriteOp.setOp kb vb] := by
    simp [CachingStore.set, hpend]
  have hYfail : ((st.set ka va).set kb vb).failed = none := hfail
  have hYscript : ((st.set ka va).set kb vb).backend.writeScript = [] := hscript
  have hdr := drain_success _ ((st.set ka va).set kb vb) hYpend hYfail hYscript
  have hdf : (drain ((st.set ka va).set kb vb)).failed = none := by
    rw [hdr]; exact hYfail
  have hfl : ((st.set ka va).set kb vb).flush =
      (.ok (), drain ((st.set ka va).set kb vb)) := by
    rw [flush_eq, hdf]
  have hYread : ((st.set ka va).set kb vb).backend.readErr = none := hread
  have hYtrace : ((st.set ka va).set kb vb).trace = st.trace := rfl
  have hlook : alookup ka (applyWrites ((st.set ka va).set kb vb).backend.data
      [WriteOp.setOp ka va, WriteOp.setOp kb vb]) = some va := by
    simp only [applyWrites, List.foldl, applyWrite]
    rw [alookup_aput_other ka kb vb _ hne, alookup_aput_same]
  constructor
  · simp [CachingStore.get, hmiss, hfl, hdr, Backend.read, hYread, hlook]
  · simp [CachingStore.get, hmiss, hfl, hdr, Backend.read, hYread, hlook, hYtrace,
      WriteOp.event]

theorem spin_C3_witness :
    (((freshStore.set "a" [49]).set "b" [50]).get "a").1 = .ok (some [49]) ∧
    (((freshStore.set "a" [49]).set "b" [50]).get "a").2.trace =
      freshStore.trace ++ [BEvent.bSet "a" [49], BEvent.bSet "b" [50], BEvent.bGet "a"] :=
  ⟨(spin_C3_flush_on_miss freshStore "a" "b" [49] [50] rfl rfl rfl rfl rfl rfl
      (by decide)).2.1,
   (spin_C3_flush_on_miss freshStore "a" "b" [49] [50] rfl rfl rfl rfl rfl rfl
      (by decide)).2.2⟩

lemma mem_present (cache : List (String × Option Bytes)) (k : String) :
    (∃ a b, (a, b) ∈ cache ∧ (∃ x, b = some x) ∧ a = k) ↔
      ∃ w, (k, some w) ∈ cache := by
  constructor
  · rintro ⟨a, b, hab, ⟨x, hx⟩, rfl⟩
    subst hx
    exact ⟨x, hab⟩
  · rintro ⟨w, hw⟩
    exact ⟨k, some w, hw, ⟨w, rfl⟩, rfl⟩

/-- C4: key-listing overlay: a key is in the `get_keys` overlay exactly when
it is a backend key whose cache entry is not a tombstone, or a key with a
present cache entry (the result is deduplicated and order-free); and in the
concrete scenario — backend keys x and y, a delete of y and a set of z —
`get_keys` returns exactly the set containing x and z. -/
theorem spin_C4_key_overlay (bkeys : List String)
    (cache : List (String × Option Bytes)) (k : String) :
    (k ∈ overlayKeys bkeys cache ↔
      (k ∈ bkeys ∧ ∀ v, alookup k cache = some v → v.isSome = true) ∨
      ∃ w, (k, some w) ∈ cache) ∧
    (∃ L, (((xyStore.delete "y").set "z" [49]).get_keys).1 = .ok L ∧
      L.toFinset = ({"x", "z"} : Finset String)) := by
  constructor
  · cases halk : alookup k cache with
    | none =>
        simp only [overlayKeys, List.mem_dedup, List.mem_append, List.mem_filter,
          List.mem_filterMap, halk]
        simp [halk]
        exact or_congr Iff.rfl (mem_present cache k)
    | some v =>
        simp only [overlayKeys, List.mem_dedup, List.mem_append, List.mem_filter,
          List.mem_filterMap, halk]
        simp [halk]
        exact or_congr Iff.rfl (mem_present cache k)
  · exact ⟨["x", "z"], by decide, by decide⟩

end Spin
